import Mathlib

/-!
Verification of the snapshot-to-graph decoding and temporal query layer of
the Querying_Dashboard repository.

The Python source is shallowly embedded: snapshot documents (`Snapshot`)
and the networkx-backed graphs (`PyGraph`) become explicit inductive data,
JSON numbers are modelled exactly as rationals, Python dictionaries become
ordered assignment lists with last-assignment-wins lookup (`pyGet`), Python
list indexing with negative-index semantics becomes `pyIndex`, and every
operation that can raise (IndexError, KeyError, TypeError) returns an
`Option` whose `none` is the raised exception.
-/

namespace QD

/-- A JSON scalar as it appears in snapshot records: a string or a number
(numbers are modelled exactly as rationals). -/
inductive Val
  | str (s : String)
  | num (q : ℚ)
deriving DecidableEq

/-- A Python dict with string keys, as the ordered list of its key
assignments; a later assignment to the same key overwrites an earlier
one, so `pyGet` takes the last matching pair. -/
abbrev Attrs := List (String × Val)

/-- Python `d.get(k)`: the value of the last assignment to `k`, `none`
when the key was never assigned (the dict's `None` default). -/
def pyGet : Attrs → String → Option Val
  | [], _ => none
  | p :: rest, k =>
    match pyGet rest k with
    | some v => some v
    | none => if p.1 = k then some p.2 else none

/-- Python list indexing `xs[i]`, negative indices counting from the end;
`none` models the IndexError raised when `i` is out of range. -/
def pyIndex {α : Type} (xs : List α) (i : ℤ) : Option α :=
  if 0 ≤ i then xs.get? i.toNat
  else if 0 ≤ i + xs.length then xs.get? (i + (xs.length : ℤ)).toNat
  else none

/-- One snapshot document (`timestamp_<n>.json`): the five top-level keys.
JSON objects are kept as association lists in key order. -/
structure Snapshot where
  directed : Bool
  node_types : List (String × List String)
  node_values : List (String × List (List Val))
  relationship_types : List (String × List String)
  relationship_values : List (List Val)
deriving DecidableEq

/-- A networkx graph (`nx.DiGraph` or `nx.Graph`): insertion-ordered vertex
list with attribute dicts, and an edge list with attribute dicts.  For an
undirected graph an edge `(u, v, a)` also stands for `(v, u, a)`. -/
structure PyGraph where
  directed : Bool
  nodes : List (Val × Attrs)
  edges : List (Val × Val × Attrs)
deriving DecidableEq

/-- Whether a vertex with identifier `i` is present. -/
def hasNode (g : PyGraph) (i : Val) : Bool :=
  g.nodes.any (fun p => p.1 = i)

/-- `graph.add_node(i, **a)`: a new vertex is appended; an existing vertex
keeps its place and has the new assignments appended to its dict
(`dict.update` semantics under last-assignment-wins lookup). -/
def addNode (g : PyGraph) (i : Val) (a : Attrs) : PyGraph :=
  if hasNode g i then
    { g with nodes := g.nodes.map (fun p => if p.1 = i then (p.1, p.2 ++ a) else p) }
  else
    { g with nodes := g.nodes ++ [(i, a)] }

/-- The implicit `add_node` performed by `add_edge` for a missing endpoint:
it never touches an existing vertex's attributes. -/
def addNodePlain (g : PyGraph) (i : Val) : PyGraph :=
  if hasNode g i then g else { g with nodes := g.nodes ++ [(i, [])] }

/-- Whether a stored edge `(a, b)` is the edge between `u` and `v`:
orientation matters exactly when the graph is directed. -/
def edgeMatch (directed : Bool) (u v a b : Val) : Bool :=
  (a = u && b = v) || (!directed && a = v && b = u)

/-- The edge-table update of `add_edge`: an existing edge between `u`
and `v` has the new assignments appended to its dict, otherwise the edge
is appended. -/
def addEdgeRaw (g : PyGraph) (u v : Val) (a : Attrs) : PyGraph :=
  if g.edges.any (fun e => edgeMatch g.directed u v e.1 e.2.1) then
    { g with edges := g.edges.map (fun e =>
        if edgeMatch g.directed u v e.1 e.2.1 then (e.1, e.2.1, e.2.2 ++ a) else e) }
  else
    { g with edges := g.edges ++ [(u, v, a)] }

/-- `graph.add_edge(u, v, **a)`: missing endpoints are added as plain
vertices, then the edge table is updated. -/
def addEdge (g : PyGraph) (u v : Val) (a : Attrs) : PyGraph :=
  addEdgeRaw (addNodePlain (addNodePlain g u) v) u v a

/-- `i[0] in all_edge_types` and the subsequent key lookup: a record's
first element names a known relationship type exactly when it is the
string key of an entry of `relationship_types`. -/
def edgeTypeFields (rts : List (String × List String)) : Val → Option (List String)
  | .str s => rts.lookup s
  | .num _ => none

/-- Walk `n` positions of the key and value lists in step, pairing them
in order; `none` when one of the lists runs out first. -/
def zipWithKeys : List String → List Val → Nat → Option Attrs
  | _, _, 0 => some []
  | [], _, _ + 1 => none
  | _ :: _, [], _ + 1 => none
  | k :: ks, v :: vs, n + 1 => (zipWithKeys ks vs n).map (fun rest => (k, v) :: rest)

/-- The edge-attribute loop of `_json_to_graph`: for `j` in
`0 .. len(i) - 3` assign `attributes[all_edge_types[i[0]][j]] = i[j]`;
`none` is the IndexError raised when the type's field list is shorter
than `len(i) - 2` (the record side cannot run out, the loop bound being
`len(i) - 2`).  Note the loop starts at `j = 0`, so the record's first
element — the type name itself — is stored under the first field
name. -/
def edgeAttrs (keys : List String) (r : List Val) : Option Attrs :=
  zipWithKeys keys r (r.length - 2)

/-- The body of the node loop of `_json_to_graph`: `node_id = node[-1]`,
`node_attributes = dict(zip(node_types[node_type], node))`,
`add_node(node_id, **node_attributes)`. -/
def insertNodeRecord (nts : List (String × List String)) (tn : String)
    (g : PyGraph) (r : List Val) : Option PyGraph := do
  let nid ← pyIndex r (-1)
  let fields ← nts.lookup tn
  pure (addNode g nid (fields.zip r))

/-- The body of the relationship loop of `_json_to_graph`: a record of a
known type gets the positional attribute dict and the edge
`i[-2] -> i[-1]`; any other record falls back to the bare edge
`i[0] -> i[1]`. -/
def insertEdgeRecord (rts : List (String × List String))
    (g : PyGraph) (r : List Val) : Option PyGraph := do
  let t0 ← pyIndex r 0
  match edgeTypeFields rts t0 with
  | some keys => do
    let attrs ← edgeAttrs keys r
    let u ← pyIndex r (-2)
    let v ← pyIndex r (-1)
    pure (addEdge g u v attrs)
  | none => do
    let u ← pyIndex r 0
    let v ← pyIndex r 1
    pure (addEdge g u v [])

/-- The node records of a snapshot in iteration order: the nested loop
`for node_type, nodes in node_values.items(): for node in nodes`
flattened to `(type name, record)` pairs. -/
def nodeRecordsOf (d : Snapshot) : List (String × List Val) :=
  d.node_values.flatMap (fun p => p.2.map (fun r => (p.1, r)))

/-- `TemporalGraph._json_to_graph`: decode one snapshot document into a
graph; `none` models the exception a malformed document raises. -/
def jsonToGraph (d : Snapshot) : Option PyGraph := do
  let g0 : PyGraph := { directed := d.directed, nodes := [], edges := [] }
  let g1 ← (nodeRecordsOf d).foldlM
    (fun g tr => insertNodeRecord d.node_types tr.1 g tr.2) g0
  d.relationship_values.foldlM (insertEdgeRecord d.relationship_types) g1

/-- The two ways `load_graph_at_timestamp` can fail: `self.files[timestamp]`
raising IndexError, or the decoder raising on a malformed document. -/
inductive LoadError
  | indexOutOfRange
  | decodeFailure
deriving DecidableEq

/-- `TemporalGraph.load_graph_at_timestamp`: index the snapshot sequence
with Python list-index semantics and decode the hit. -/
def load_graph_at_timestamp (files : List Snapshot) (t : ℤ) :
    Except LoadError PyGraph :=
  match pyIndex files t with
  | none => .error .indexOutOfRange
  | some d =>
    match jsonToGraph d with
    | none => .error .decodeFailure
    | some g => .ok g

/-- A minimal well-formed snapshot: one node type with one record and no
relationships.  Used as concrete input by several witnesses. -/
def demoDoc : Snapshot :=
  { directed := true
    node_types := [("BusinessGroup", ["node_type", "name", "id"])]
    node_values := [("BusinessGroup", [[.str "BusinessGroup", .str "Alpha", .str "BG_001"]])]
    relationship_types := []
    relationship_values := [] }

/-- The graph `demoDoc` decodes to. -/
def demoGraph : PyGraph :=
  { directed := true
    nodes := [(.str "BG_001",
      [("node_type", .str "BusinessGroup"), ("name", .str "Alpha"), ("id", .str "BG_001")])]
    edges := [] }

theorem demoDoc_decodes : jsonToGraph demoDoc = some demoGraph := by decide

/-- Out-of-range indexing in both directions raises. -/
theorem pyIndex_none {α : Type} (xs : List α) (t : ℤ)
    (h : (xs.length : ℤ) ≤ t ∨ t < -(xs.length : ℤ)) : pyIndex xs t = none := by
  rcases h with h | h
  · have h0 : 0 ≤ t := le_trans (Int.ofNat_nonneg _) h
    rw [pyIndex, if_pos h0, List.get?_eq_none]
    omega
  · have h0 : ¬ 0 ≤ t := by omega
    have h1 : ¬ 0 ≤ t + (xs.length : ℤ) := by omega
    rw [pyIndex, if_neg h0, if_neg h1]

/-- Negative in-range indexing hits element `len + t`. -/
theorem pyIndex_neg {α : Type} (xs : List α) (t : ℤ)
    (h1 : -(xs.length : ℤ) ≤ t) (h2 : t < 0) :
    pyIndex xs t = xs.get? (t + (xs.length : ℤ)).toNat := by
  have h0 : ¬ 0 ≤ t := by omega
  have h3 : 0 ≤ t + (xs.length : ℤ) := by omega
  rw [pyIndex, if_neg h0, if_pos h3]

/-- C5 as stated is false: with one snapshot on file, the timestamp `-1`
is outside `0..N-1`, yet `load_graph_at_timestamp` raises nothing and
returns a graph. -/
theorem C5_counterexample :
    load_graph_at_timestamp [demoDoc] (-1) = .ok demoGraph ∧ ¬ (0 : ℤ) ≤ -1 :=
  ⟨rfl, by decide⟩

/-- C5 amended: `load_graph_at_timestamp` signals its index-out-of-range
error exactly for `t ≥ N` or `t < -N`; indices `-N ≤ t < 0` are served
with Python negative-index semantics (see `C10_negative_index_load`). -/
theorem C5_out_of_range_raises (files : List Snapshot) (t : ℤ)
    (h : (files.length : ℤ) ≤ t ∨ t < -(files.length : ℤ)) :
    load_graph_at_timestamp files t = .error .indexOutOfRange := by
  rw [load_graph_at_timestamp, pyIndex_none files t h]

theorem C5_out_of_range_raises_witness :
    load_graph_at_timestamp [demoDoc] 5 = .error .indexOutOfRange :=
  C5_out_of_range_raises [demoDoc] 5 (by decide)

/-- C10: for `-N ≤ t < 0` no error is signalled: the snapshot at position
`N + t` is decoded and returned. -/
theorem C10_negative_index_load (files : List Snapshot) (t : ℤ) (d : Snapshot)
    (g : PyGraph) (h1 : -(files.length : ℤ) ≤ t) (h2 : t < 0)
    (hd : files.get? (t + (files.length : ℤ)).toNat = some d)
    (hg : jsonToGraph d = some g) :
    load_graph_at_timestamp files t = .ok g := by
  have hp := pyIndex_neg files t h1 h2
  simp only [load_graph_at_timestamp, hp, hd, hg]

theorem C10_negative_index_load_witness :
    load_graph_at_timestamp [demoDoc] (-1) = .ok demoGraph :=
  C10_negative_index_load [demoDoc] (-1) demoDoc demoGraph
    (by decide) (by decide) (by decide) demoDoc_decodes

/-- The common shape of the repository's query loops: for each element,
either the body raises (outer `none`), contributes nothing (`some none`),
or appends one result (`some (some b)`). -/
def pyCollect {α β : Type} (f : α → Option (Option β)) (l : List α) : Option (List β) :=
  l.foldlM (fun acc x =>
    (f x).map (fun r => match r with | none => acc | some b => acc ++ [b])) []

theorem pyCollect_go {α β : Type} (f : α → Option (Option β)) :
    ∀ (l : List α) (acc L : List β),
      l.foldlM (fun acc x =>
        (f x).map (fun r => match r with | none => acc | some b => acc ++ [b])) acc
        = some L →
      L = acc ++ l.filterMap (fun x => (f x).bind id) := by
  intro l
  induction l with
  | nil =>
    intro acc L h
    simp only [List.foldlM_nil, Option.pure_def, Option.some.injEq] at h
    subst h
    simp
  | cons x xs ih =>
    intro acc L h
    simp only [List.foldlM_cons] at h
    cases hf : f x with
    | none => rw [hf] at h; simp at h
    | some r =>
      rw [hf] at h
      cases r with
      | none =>
        simp only [Option.map_some', Option.some_bind] at h
        have := ih acc L h
        simp [List.filterMap_cons, hf, this, Option.bind]
      | some b =>
        simp only [Option.map_some', Option.some_bind] at h
        have := ih (acc ++ [b]) L h
        simp [List.filterMap_cons, hf, this, Option.bind]

/-- A crash-free collection run is the `filterMap` of its per-element
contributions. -/
theorem pyCollect_eq {α β : Type} (f : α → Option (Option β)) (l : List α)
    (L : List β) (h : pyCollect f l = some L) :
    L = l.filterMap (fun x => (f x).bind id) := by
  simpa using pyCollect_go f l [] L h

/-- Membership characterization of a crash-free collection run. -/
theorem pyCollect_mem {α β : Type} (f : α → Option (Option β)) (l : List α)
    (L : List β) (h : pyCollect f l = some L) (b : β) :
    b ∈ L ↔ ∃ x ∈ l, f x = some (some b) := by
  have hL := pyCollect_eq f l L h
  subst hL
  rw [List.mem_filterMap]
  constructor
  · rintro ⟨x, hx, hfx⟩
    refine ⟨x, hx, ?_⟩
    cases hf : f x with
    | none => rw [hf] at hfx; simp [Option.bind] at hfx
    | some r => rw [hf] at hfx; cases r <;> simp_all
  · rintro ⟨x, hx, hfx⟩
    exact ⟨x, hx, by simp [hfx]⟩

/-- `attrs.get("cost", float("inf"))`: a present value, or positive
infinity when the key is missing. -/
inductive CostVal
  | val (v : Val)
  | inf
deriving DecidableEq

/-- The `cost` attribute with its `float("inf")` default. -/
def costOf (a : Attrs) : CostVal :=
  match pyGet a "cost" with
  | some v => .val v
  | none => .inf

/-- The `demand` attribute with its `0` default. -/
def demandOf (a : Attrs) : Val :=
  (pyGet a "demand").getD (.num 0)

/-- Python `making_cost <= cost_threshold` against a finite threshold:
positive infinity compares false, a string raises TypeError (`none`). -/
def costLeQ : CostVal → ℚ → Option Bool
  | .val (.num x), q => some (decide (x ≤ q))
  | .val (.str _), _ => none
  | .inf, _ => some false

/-- Python `demand >= demand_threshold`: a string raises TypeError. -/
def valGeQ : Val → ℚ → Option Bool
  | .num x, q => some (decide (q ≤ x))
  | .str _, _ => none

/-- Python `value > threshold`: a string raises TypeError. -/
def valGtQ : Val → ℚ → Option Bool
  | .num x, q => some (decide (q < x))
  | .str _, _ => none

/-- Loop body of `query_profitable_products`: Python `and` short-circuits,
so `demand` is only compared once the cost test has passed. -/
def profitableStep (ct dt : ℚ) (p : Val × Attrs) :
    Option (Option (Val × CostVal × Val)) :=
  if pyGet p.2 "node_type" = some (.str "ProductOffering") then
    match costLeQ (costOf p.2) ct with
    | none => none
    | some false => some none
    | some true =>
      match valGeQ (demandOf p.2) dt with
      | none => none
      | some b2 => some (if b2 then some (p.1, costOf p.2, demandOf p.2) else none)
  else some none

/-- `query_profitable_products(graph, cost_threshold, demand_threshold)`. -/
def query_profitable_products (g : PyGraph) (ct dt : ℚ) :
    Option (List (Val × CostVal × Val)) :=
  pyCollect (profitableStep ct dt) g.nodes

theorem profitableStep_some {ct dt : ℚ} {p : Val × Attrs}
    {b : Val × CostVal × Val} :
    profitableStep ct dt p = some (some b) ↔
      pyGet p.2 "node_type" = some (.str "ProductOffering") ∧
      (∃ x : ℚ, pyGet p.2 "cost" = some (.num x) ∧ x ≤ ct ∧
        ((pyGet p.2 "demand" = none ∧ dt ≤ 0 ∧ b = (p.1, .val (.num x), .num 0)) ∨
         (∃ y : ℚ, pyGet p.2 "demand" = some (.num y) ∧ dt ≤ y ∧
           b = (p.1, .val (.num x), .num y)))) := by
  by_cases hnt : pyGet p.2 "node_type" = some (Val.str "ProductOffering")
  · cases hcost : pyGet p.2 "cost" with
    | none => simp [profitableStep, hnt, costOf, hcost, costLeQ]
    | some v =>
      cases v with
      | str s => simp [profitableStep, hnt, costOf, hcost, costLeQ]
      | num x =>
        by_cases hx : x ≤ ct
        · cases hdem : pyGet p.2 "demand" with
          | none =>
            by_cases hdt : dt ≤ 0 <;>
              simp [profitableStep, hnt, costOf, hcost, costLeQ, hx, demandOf,
                hdem, valGeQ, hdt, eq_comm]
          | some w =>
            cases w with
            | str s =>
              simp [profitableStep, hnt, costOf, hcost, costLeQ, hx, demandOf,
                hdem, valGeQ]
            | num y =>
              by_cases hy : dt ≤ y <;>
                simp [profitableStep, hnt, costOf, hcost, costLeQ, hx, demandOf,
                  hdem, valGeQ, hy, eq_comm]
        · simp [profitableStep, hnt, costOf, hcost, costLeQ, hx]
  · simp [profitableStep, hnt]

/-- C9: a crash-free run of the profitable-products query holds exactly
the ProductOffering vertices with a present numeric `cost` at most the
ceiling (a missing `cost` is positive infinity, hence excluded) and with
`demand` at least the floor, a missing `demand` counting as zero; both
comparisons are inclusive and each hit carries its cost and demand. -/
theorem C9_profitable_products (g : PyGraph) (ct dt : ℚ)
    (L : List (Val × CostVal × Val))
    (h : query_profitable_products g ct dt = some L) :
    ∀ i c dv, (i, c, dv) ∈ L ↔ ∃ a, (i, a) ∈ g.nodes ∧
      pyGet a "node_type" = some (.str "ProductOffering") ∧
      (∃ x : ℚ, pyGet a "cost" = some (.num x) ∧ x ≤ ct ∧ c = .val (.num x) ∧
        ((pyGet a "demand" = none ∧ dt ≤ 0 ∧ dv = .num 0) ∨
         (∃ y : ℚ, pyGet a "demand" = some (.num y) ∧ dt ≤ y ∧ dv = .num y))) := by
  intro i c dv
  rw [pyCollect_mem _ _ _ h]
  constructor
  · rintro ⟨⟨i0, a⟩, hmem, hstep⟩
    rcases profitableStep_some.mp hstep with ⟨h1, x, h2, h3, h4 | h4⟩
    · rcases h4 with ⟨hd, hdt, hb⟩
      rcases hb with ⟨rfl, rfl, rfl⟩
      exact ⟨a, hmem, h1, x, h2, h3, rfl, Or.inl ⟨hd, hdt, rfl⟩⟩
    · rcases h4 with ⟨y, hd, hdy, hb⟩
      rcases hb with ⟨rfl, rfl, rfl⟩
      exact ⟨a, hmem, h1, x, h2, h3, rfl, Or.inr ⟨y, hd, hdy, rfl⟩⟩
  · rintro ⟨a, hmem, h1, x, h2, h3, rfl, h4 | h4⟩
    · rcases h4 with ⟨hd, hdt, rfl⟩
      exact ⟨(i, a), hmem, profitableStep_some.mpr ⟨h1, x, h2, h3, Or.inl ⟨hd, hdt, rfl⟩⟩⟩
    · rcases h4 with ⟨y, hd, hdy, rfl⟩
      exact ⟨(i, a), hmem,
        profitableStep_some.mpr ⟨h1, x, h2, h3, Or.inr ⟨y, hd, hdy, rfl⟩⟩⟩

/-- A snapshot with one product offering sitting exactly on both
thresholds (`cost = 100`, `demand = 10`). -/
def c9doc : Snapshot :=
  { directed := true
    node_types := [("ProductOffering", ["node_type", "name", "cost", "demand", "id"])]
    node_values := [("ProductOffering",
      [[.str "ProductOffering", .str "P", .num 100, .num 10, .str "PO_001"]])]
    relationship_types := []
    relationship_values := [] }

/-- The graph `c9doc` decodes to. -/
def c9graph : PyGraph :=
  { directed := true
    nodes := [(.str "PO_001",
      [("node_type", .str "ProductOffering"), ("name", .str "P"),
       ("cost", .num 100), ("demand", .num 10), ("id", .str "PO_001")])]
    edges := [] }

theorem C9_profitable_products_witness :
    (Val.str "PO_001", CostVal.val (Val.num 100), Val.num 10) ∈
        [(Val.str "PO_001", CostVal.val (Val.num 100), Val.num 10)] ↔
      ∃ a, (Val.str "PO_001", a) ∈ c9graph.nodes ∧
        pyGet a "node_type" = some (.str "ProductOffering") ∧
        (∃ x : ℚ, pyGet a "cost" = some (.num x) ∧ x ≤ 100 ∧
          CostVal.val (Val.num 100) = .val (.num x) ∧
          ((pyGet a "demand" = none ∧ (10 : ℚ) ≤ 0 ∧ Val.num 10 = .num 0) ∨
           (∃ y : ℚ, pyGet a "demand" = some (.num y) ∧ (10 : ℚ) ≤ y ∧
             Val.num 10 = .num y))) :=
  C9_profitable_products c9graph 100 10
    [(Val.str "PO_001", CostVal.val (Val.num 100), Val.num 10)] (by decide)
    (Val.str "PO_001") (CostVal.val (Val.num 100)) (Val.num 10)

/-- Loop body of `query_high_operating_cost_nodes`: the filter reads
`operating_cost` with default 0, but each hit is paired with
`attrs.get("operating_cost,0")` — a misspelt single key — whose lookup
yields Python `None`. -/
def highCostStep (thr : ℚ) (p : Val × Attrs) :
    Option (Option (Val × Option Val)) :=
  if pyGet p.2 "node_type" = some (.str "Facility") then
    match valGtQ ((pyGet p.2 "operating_cost").getD (.num 0)) thr with
    | none => none
    | some b => some (if b then some (p.1, pyGet p.2 "operating_cost,0") else none)
  else some none

/-- `query_high_operating_cost_nodes(G, threshold)` (graph-based). -/
def query_high_operating_cost_nodes (g : PyGraph) (thr : ℚ) :
    Option (List (Val × Option Val)) :=
  pyCollect (highCostStep thr) g.nodes

/-- Loop body of `query_high_operating_cost_nodes_json`: filter on
`node[-2] > threshold`, emit `[node[-1], node[-2]]`. -/
def highCostJsonStep (thr : ℚ) (r : List Val) :
    Option (Option (Val × Option Val)) := do
  let c ← pyIndex r (-2)
  match valGtQ c thr with
  | none => none
  | some b =>
    if b then do
      let i ← pyIndex r (-1)
      pure (some (i, some c))
    else pure none

/-- `query_high_operating_cost_nodes_json(json_graph, threshold)`
(raw-document-based). -/
def query_high_operating_cost_nodes_json (d : Snapshot) (thr : ℚ) :
    Option (List (Val × Option Val)) := do
  let recs ← d.node_values.lookup "Facility"
  pyCollect (highCostJsonStep thr) recs

/-- A snapshot with one facility whose operating cost 500 clears the
threshold 100: the failing input for C8. -/
def c8doc : Snapshot :=
  { directed := true
    node_types := [("Facility", ["node_type", "name", "operating_cost", "id"])]
    node_values := [("Facility", [[.str "Facility", .str "F", .num 500, .str "F_001"]])]
    relationship_types := []
    relationship_values := [] }

/-- C8 fails on the code: on `c8doc` the graph-based query pairs the
facility with `None` (its result reads the misspelt key
`"operating_cost,0"`), while the raw-document query pairs it with the
operating cost 500, so the two result sets differ. -/
theorem C8_high_cost_disagree :
    (jsonToGraph c8doc).map (fun g => query_high_operating_cost_nodes g 100)
      = some (some [(.str "F_001", none)]) ∧
    query_high_operating_cost_nodes_json c8doc 100
      = some [(.str "F_001", some (.num 500))] ∧
    ([(Val.str "F_001", (none : Option Val))] : List (Val × Option Val))
      ≠ [(Val.str "F_001", some (Val.num 500))] := by
  refine ⟨by decide, by decide, by decide⟩

/-- Python `enumerate` starting at `n`: the loop
`for timestamp in range(len(files))` pairs each snapshot with its index. -/
def withIdx {α : Type} : Nat → List α → List (Nat × α)
  | _, [] => []
  | n, x :: xs => (n, x) :: withIdx (n + 1) xs

/-- A numeric record value; `none` models the TypeError arithmetic on a
string raises. -/
def asNum : Val → Option ℚ
  | .num q => some q
  | .str _ => none

/-- Elementwise evaluation of a comprehension, left to right, raising
(`none`) as soon as one element raises. -/
def mapOption {α β : Type} (f : α → Option β) : List α → Option (List β)
  | [] => some []
  | x :: xs => do
    let y ← f x
    let ys ← mapOption f xs
    pure (y :: ys)

/-- The comprehension of `track_attribute_over_time` at one timestamp:
`[node[node_types[nt].index(attr)] for node in node_values[nt] if attr in
node_types[nt]]`, guarded by `if nt in node_values`.  A type absent from
`node_values`, an empty bucket, or an attribute the type does not declare
all yield the empty list; a nonempty bucket whose type is missing from
`node_types` raises KeyError, and a record shorter than the attribute's
position raises IndexError. -/
def qualifyingValues (d : Snapshot) (nt attr : String) : Option (List Val) :=
  match d.node_values.lookup nt with
  | none => some []
  | some [] => some []
  | some recs =>
    match d.node_types.lookup nt with
    | none => none
    | some fields =>
      if attr ∈ fields then mapOption (fun r => r.get? (fields.indexOf attr)) recs
      else some []

/-- One timestamp of `track_attribute_over_time`: the mean of the
qualifying values, `some none` when there is nothing to aggregate (the
timestamp is skipped), outer `none` when the body raises. -/
def timestampEntry (d : Snapshot) (nt attr : String) : Option (Option ℚ) := do
  let vs ← qualifyingValues d nt attr
  let qs ← mapOption asNum vs
  pure (if qs.isEmpty then none else some (qs.sum / (qs.length : ℚ)))

/-- `track_attribute_over_time(node_type, attribute)`: the list of
`(timestamp, mean)` pairs the plot receives. -/
def track_attribute_over_time (files : List Snapshot) (nt attr : String) :
    Option (List (Nat × ℚ)) :=
  pyCollect (fun td => (timestampEntry td.2 nt attr).map
    (fun e => e.map (fun m => (td.1, m)))) (withIdx 0 files)

/-- Three snapshots whose `ProductOffering.demand` buckets hold the
values `[10, 20]`, `[30]` and `[]`. -/
def c3po (vs : List ℚ) : Snapshot :=
  { directed := true
    node_types := [("ProductOffering", ["demand", "id"])]
    node_values := [("ProductOffering",
      vs.map (fun v => [Val.num v, Val.str "P"]))]
    relationship_types := []
    relationship_values := [] }

theorem trackStep_eq (nt attr : String) (td : Nat × Snapshot) :
    ((timestampEntry td.2 nt attr).map
      (fun e => e.map (fun m => (td.1, m)))).bind id
    = (qualifyingValues td.2 nt attr).bind (fun vs =>
        (mapOption asNum vs).bind (fun qs =>
          if qs.isEmpty then none
          else some (td.1, qs.sum / (qs.length : ℚ)))) := by
  cases hq : qualifyingValues td.2 nt attr with
  | none => simp [timestampEntry, hq]
  | some vs =>
    cases hm : mapOption asNum vs with
    | none => simp [timestampEntry, hq, hm]
    | some qs =>
      cases qs with
      | nil => simp [timestampEntry, hq, hm]
      | cons q qt => simp [timestampEntry, hq, hm]

/-- C3: a crash-free run of the node attribute trend is, timestamp by
timestamp in order, the arithmetic mean of that type's qualifying values
for the attribute, with no pair emitted for a timestamp whose qualifying
value list is empty; on buckets `[10, 20]`, `[30]`, `[]` it is exactly
`[(0, 15), (1, 30)]`, timestamp 2 omitted. -/
theorem C3_node_attribute_trend :
    (∀ (files : List Snapshot) (nt attr : String) (L : List (Nat × ℚ)),
      track_attribute_over_time files nt attr = some L →
      L = (withIdx 0 files).filterMap (fun td =>
        (qualifyingValues td.2 nt attr).bind (fun vs =>
          (mapOption asNum vs).bind (fun qs =>
            if qs.isEmpty then none
            else some (td.1, qs.sum / (qs.length : ℚ)))))) ∧
    track_attribute_over_time [c3po [10, 20], c3po [30], c3po []]
      "ProductOffering" "demand" = some [(0, 15), (1, 30)] := by
  constructor
  · intro files nt attr L h
    rw [pyCollect_eq _ _ _ h]
    exact List.filterMap_congr (fun td _ => trackStep_eq nt attr td)
  · have e0 : timestampEntry (c3po [10, 20]) "ProductOffering" "demand"
        = some (some 15) := by
      simp [timestampEntry, qualifyingValues, c3po, asNum, mapOption]
      norm_num
    have e1 : timestampEntry (c3po [30]) "ProductOffering" "demand"
        = some (some 30) := by
      simp [timestampEntry, qualifyingValues, c3po, asNum, mapOption]
    have e2 : timestampEntry (c3po []) "ProductOffering" "demand"
        = some none := by
      simp [timestampEntry, qualifyingValues, c3po, mapOption]
    simp [track_attribute_over_time, pyCollect, withIdx, e0, e1, e2]

/-- The population mean `np.mean` over exact rationals. -/
def npMean (vs : List ℚ) : ℚ := vs.sum / (vs.length : ℚ)

/-- The population variance underlying `np.std`. -/
def npVariance (vs : List ℚ) : ℚ :=
  ((vs.map (fun v => (v - npMean vs) ^ 2)).sum) / (vs.length : ℚ)

/-- `np.std`, the square root of `npVariance`.  It is rational — exactly
0 — in the zero-variance case this development evaluates it at; `none`
abstracts an irrational standard deviation. -/
def npStd (vs : List ℚ) : Option ℚ :=
  if npVariance vs = 0 then some 0 else none

/-- Python float division as `detect_anomalies` uses it: dividing by a
zero standard deviation silently yields NaN (modelled `none`), not an
exception. -/
def pyDivNan (a b : ℚ) : Option ℚ :=
  if b = 0 then none else some (a / b)

/-- The z-score list `[(val - mean_value) / std_dev for val in
attribute_values]`. -/
def zScoresOf (vs : List ℚ) (std : ℚ) : List (Option ℚ) :=
  vs.map (fun v => pyDivNan (v - npMean vs) std)

/-- `[i for i, score in enumerate(z_scores) if abs(score) > z_threshold]`:
`abs(nan) > t` is false in Python, so a NaN z-score is never flagged. -/
def anomalyIndices (vs : List ℚ) (std thr : ℚ) : List Nat :=
  (withIdx 0 (zScoresOf vs std)).filterMap (fun p =>
    match p.2 with
    | none => none
    | some z => if thr < |z| then some p.1 else none)

/-- `detect_anomalies(node_type, attribute, z_threshold)`: collect the
mean trend exactly as `track_attribute_over_time` does, then flag
z-score outliers.  Outer `none` is a raised exception; the inner layer
is `none` when the exact model cannot represent the irrational standard
deviation.  The function contains no error path of its own: no
`DegenerateDistributionError` exists anywhere in the code. -/
def detect_anomalies (files : List Snapshot) (nt attr : String) (thr : ℚ) :
    Option (Option (List Nat)) := do
  let L ← track_attribute_over_time files nt attr
  let vals := L.map Prod.snd
  pure ((npStd vals).map (fun s => anomalyIndices vals s thr))

theorem zScores_zero_aux (m : ℚ) :
    ∀ vs : List ℚ,
      vs.map (fun v => pyDivNan (v - m) 0) = List.replicate vs.length none := by
  intro vs
  induction vs with
  | nil => simp
  | cons v tl ih => simp [pyDivNan, ih, List.replicate_succ]

/-- With a zero standard deviation every z-score is the silent NaN. -/
theorem zScoresOf_zero_std (vs : List ℚ) :
    zScoresOf vs 0 = List.replicate vs.length none := by
  unfold zScoresOf
  exact zScores_zero_aux (npMean vs) vs

theorem anomaly_filter_replicate (thr : ℚ) :
    ∀ (k n : Nat),
      (withIdx n (List.replicate k (none : Option ℚ))).filterMap (fun p =>
        match p.2 with
        | none => none
        | some z => if thr < |z| then some p.1 else none) = [] := by
  intro k
  induction k with
  | zero => intro n; simp [withIdx]
  | succ k ih =>
    intro n
    rw [List.replicate_succ]
    simpa [withIdx, List.filterMap_cons] using ih (n + 1)

theorem anomalyIndices_zero_std (vs : List ℚ) (thr : ℚ) :
    anomalyIndices vs 0 thr = [] := by
  unfold anomalyIndices
  rw [zScoresOf_zero_std]
  exact anomaly_filter_replicate thr vs.length 0

/-- C4 fails on the code: on a zero-variance trend, `detect_anomalies`
raises nothing — the standard deviation is exactly 0, every z-score is a
silent NaN, and the anomaly list comes back empty. -/
theorem C4_zero_variance_silent (files : List Snapshot) (nt attr : String)
    (thr : ℚ) (L : List (Nat × ℚ))
    (h : track_attribute_over_time files nt attr = some L)
    (hz : npVariance (L.map Prod.snd) = 0) :
    detect_anomalies files nt attr thr = some (some []) ∧
    zScoresOf (L.map Prod.snd) 0 = List.replicate (L.map Prod.snd).length none := by
  constructor
  · simp [detect_anomalies, h, npStd, hz, anomalyIndices_zero_std]
  · exact zScoresOf_zero_std (L.map Prod.snd)

theorem C4_zero_variance_silent_witness :
    detect_anomalies [c3po [5], c3po [5]] "ProductOffering" "demand" 1.1
      = some (some []) ∧
    zScoresOf ([(0, (5 : ℚ)), (1, 5)].map Prod.snd) 0
      = List.replicate ([(0, (5 : ℚ)), (1, 5)].map Prod.snd).length none := by
  have ht : track_attribute_over_time [c3po [5], c3po [5]]
      "ProductOffering" "demand" = some [(0, 5), (1, 5)] := by
    have e : timestampEntry (c3po [5]) "ProductOffering" "demand"
        = some (some 5) := by
      simp [timestampEntry, qualifyingValues, c3po, asNum, mapOption]
    simp [track_attribute_over_time, pyCollect, withIdx, e]
  have hz : npVariance ([(0, (5 : ℚ)), (1, 5)].map Prod.snd) = 0 := by
    norm_num [npVariance, npMean]
  exact C4_zero_variance_silent [c3po [5], c3po [5]] "ProductOffering"
    "demand" 1.1 [(0, 5), (1, 5)] ht hz

/-- One node-type bucket scanned for one timestamp by
`plot_attribute_for_node_streamlit`: the first record containing the
identifier anywhere among its values wins, and the `break` ends the scan
of this bucket only.  `some none` is no contribution; outer `none` is
the KeyError on a missing `node_types` entry or the IndexError on a
record shorter than the attribute's position. -/
def bucketContribution (nts : List (String × List String)) (tn : String)
    (recs : List (List Val)) (nid : Val) (attr : String) : Option (Option Val) :=
  match recs.find? (fun r => r.contains nid) with
  | none => some none
  | some sub =>
    match nts.lookup tn with
    | none => none
    | some fields =>
      if attr ∈ fields then
        match sub.get? (fields.indexOf attr) with
        | none => none
        | some v => some (some v)
      else some none

/-- The iteration space of the nested loops of
`plot_attribute_for_node_streamlit`: every `(timestamp, snapshot,
type name, bucket)` in order. -/
def nodeBucketsOf (files : List Snapshot) :
    List (Nat × Snapshot × String × List (List Val)) :=
  (withIdx 0 files).flatMap (fun td =>
    td.2.node_values.map (fun p => (td.1, td.2, p.1, p.2)))

/-- The collection loop of `plot_attribute_for_node_streamlit`: since
the `break` does not leave the outer bucket loop, every bucket of every
timestamp may contribute a value. -/
def plot_attribute_for_node (files : List Snapshot) (nid : Val) (attr : String) :
    Option (List (Nat × Val)) :=
  pyCollect (fun x =>
    (bucketContribution x.2.1.node_types x.2.2.1 x.2.2.2 nid attr).map
      (fun c => c.map (fun v => (x.1, v)))) (nodeBucketsOf files)

/-- The function's report: the distinct not-found error exactly when the
`attribute_found` flag never went up, which in a crash-free run is
exactly when no pair was collected. -/
def plot_attribute_result (files : List Snapshot) (nid : Val) (attr : String) :
    Option (Except String (List (Nat × Val))) :=
  (plot_attribute_for_node files nid attr).map (fun l =>
    if l.isEmpty then .error "attribute not found" else .ok l)

/-- A snapshot in which the identifier `X` appears in two different
node-type buckets, both declaring attribute `a`. -/
def c7doc : Snapshot :=
  { directed := true
    node_types := [("A", ["a", "id"]), ("B", ["a", "id"])]
    node_values := [("A", [[.num 1, .str "X"]]), ("B", [[.num 2, .str "X"]])]
    relationship_types := []
    relationship_values := [] }

/-- C7 as stated is false: with `X` in two buckets the single-node trend
collects two values for timestamp 0 — the first match only ends the scan
of its own bucket, and the later bucket still contributes. -/
theorem C7_counterexample :
    plot_attribute_for_node [c7doc] (.str "X") "a"
      = some [(0, .num 1), (0, .num 2)] ∧
    ¬ (([(0, Val.num 1), (0, Val.num 2)] : List (Nat × Val)).countP
        (fun p => p.1 == 0) ≤ 1) :=
  ⟨by decide, by decide⟩

/-- C7 amended: per timestamp, each node-type bucket contributes at most
one value — that of the first record in the bucket containing the
identifier, when its type declares the attribute — and every such bucket
contributes, not only the first; the distinct not-found report happens
exactly when nothing was collected. -/
theorem C7_per_bucket_trend (files : List Snapshot) (nid : Val) (attr : String)
    (L : List (Nat × Val)) (h : plot_attribute_for_node files nid attr = some L) :
    (∀ t v, (t, v) ∈ L ↔ ∃ d, (t, d) ∈ withIdx 0 files ∧
      ∃ p ∈ d.node_values,
        bucketContribution d.node_types p.1 p.2 nid attr = some (some v)) ∧
    (plot_attribute_result files nid attr
        = some (.error "attribute not found") ↔ L = []) := by
  constructor
  · intro t v
    rw [pyCollect_mem _ _ _ h]
    constructor
    · rintro ⟨x, hx, hfx⟩
      rcases List.mem_flatMap.mp hx with ⟨td, htd, hxin⟩
      rcases List.mem_map.mp hxin with ⟨p, hp, rfl⟩
      cases hbc : bucketContribution td.2.node_types p.1 p.2 nid attr with
      | none => rw [hbc] at hfx; simp at hfx
      | some c =>
        rw [hbc] at hfx
        cases c with
        | none => simp at hfx
        | some w =>
          simp only [Option.map_some', Option.map, Option.some.injEq] at hfx
          have h1 : td.1 = t := congrArg Prod.fst hfx
          have h2 : w = v := congrArg Prod.snd hfx
          subst h1
          subst h2
          exact ⟨td.2, by simpa using htd, p, hp, hbc⟩
    · rintro ⟨d, hd, p, hp, hbc⟩
      refine ⟨(t, d, p.1, p.2), ?_, ?_⟩
      · exact List.mem_flatMap.mpr ⟨(t, d), hd, List.mem_map.mpr ⟨p, hp, rfl⟩⟩
      · simp [hbc]
  · rw [plot_attribute_result, h]
    cases L <;> simp

theorem C7_per_bucket_trend_witness :
    (0, Val.num 2) ∈ ([(0, Val.num 1), (0, Val.num 2)] : List (Nat × Val)) ↔
      ∃ d, ((0 : Nat), d) ∈ withIdx 0 [c7doc] ∧
        ∃ p ∈ d.node_values,
          bucketContribution d.node_types p.1 p.2 (Val.str "X") "a"
            = some (some (Val.num 2)) :=
  (C7_per_bucket_trend [c7doc] (Val.str "X") "a"
    [(0, Val.num 1), (0, Val.num 2)] (by decide)).1 0 (Val.num 2)

theorem foldlM_option_append {α σ : Type} (f : σ → α → Option σ)
    (l1 l2 : List α) (s s2 : σ) (h : (l1 ++ l2).foldlM f s = some s2) :
    ∃ smid, l1.foldlM f s = some smid ∧ l2.foldlM f smid = some s2 := by
  induction l1 generalizing s with
  | nil => exact ⟨s, by simp, by simpa using h⟩
  | cons x xs ih =>
    rw [List.cons_append, List.foldlM_cons] at h
    cases hf : f s x with
    | none => rw [hf] at h; simp at h
    | some s1 =>
      rw [hf] at h
      simp only [Option.bind_eq_bind, Option.some_bind] at h
      rcases ih s1 h with ⟨smid, h1, h2⟩
      refine ⟨smid, ?_, h2⟩
      rw [List.foldlM_cons, hf]
      simpa using h1

theorem foldlM_option_invariant {α σ : Type} (f : σ → α → Option σ)
    (P : σ → Prop) (l : List α) :
    ∀ (s s2 : σ), l.foldlM f s = some s2 → P s →
      (∀ t t2 a, a ∈ l → P t → f t a = some t2 → P t2) → P s2 := by
  induction l with
  | nil =>
    intro s s2 h hP _
    simp only [List.foldlM_nil, Option.pure_def, Option.some.injEq] at h
    subst h
    exact hP
  | cons x xs ih =>
    intro s s2 h hP hstep
    rw [List.foldlM_cons] at h
    cases hf : f s x with
    | none => rw [hf] at h; simp at h
    | some s1 =>
      rw [hf] at h
      simp only [Option.bind_eq_bind, Option.some_bind] at h
      exact ih s1 s2 h (hstep s s1 x (List.mem_cons_self x xs) hP hf)
        (fun t t2 a ha => hstep t t2 a (List.mem_cons_of_mem _ ha))

theorem filter_map_eq {γ : Type} (l : List γ) (f : γ → γ) (p : γ → Bool)
    (hp : ∀ x ∈ l, p (f x) = p x) (hkeep : ∀ x ∈ l, p x = true → f x = x) :
    (l.map f).filter p = l.filter p := by
  induction l with
  | nil => rfl
  | cons x xs ih =>
    have hpx := hp x (List.mem_cons_self x xs)
    have ihx := ih (fun y hy => hp y (List.mem_cons_of_mem _ hy))
      (fun y hy => hkeep y (List.mem_cons_of_mem _ hy))
    cases hx : p x with
    | false => simp [List.filter_cons, hx, hpx, ihx]
    | true =>
      have hfx := hkeep x (List.mem_cons_self x xs) hx
      simp [List.filter_cons, hx, hpx, hfx, ihx]

theorem edgeMatch_refl (dir : Bool) (u v : Val) :
    edgeMatch dir u v u v = true := by
  simp [edgeMatch]

/-- Two edge keys that both match one stored edge match each other. -/
theorem edgeMatch_trans (dir : Bool) (u v u2 v2 a b : Val)
    (h2 : edgeMatch dir u2 v2 a b = true)
    (h1 : edgeMatch dir u v a b = true) :
    edgeMatch dir u v u2 v2 = true := by
  cases dir with
  | false =>
    simp only [edgeMatch, Bool.not_false, Bool.true_and, Bool.or_eq_true,
      Bool.and_eq_true, decide_eq_true_eq] at h1 h2 ⊢
    rcases h1 with ⟨rfl, rfl⟩ | ⟨rfl, rfl⟩ <;>
      rcases h2 with ⟨rfl, rfl⟩ | ⟨rfl, rfl⟩ <;> simp
  | true =>
    simp only [edgeMatch, Bool.not_true, Bool.false_and, Bool.and_false,
      Bool.or_false, Bool.and_eq_true, decide_eq_true_eq] at h1 h2 ⊢
    rcases h1 with ⟨rfl, rfl⟩
    exact ⟨h2.1.symm, h2.2.symm⟩

theorem addNode_edges (g : PyGraph) (i : Val) (a : Attrs) :
    (addNode g i a).edges = g.edges := by
  unfold addNode; split <;> rfl

theorem addNode_directed (g : PyGraph) (i : Val) (a : Attrs) :
    (addNode g i a).directed = g.directed := by
  unfold addNode; split <;> rfl

theorem addNodePlain_edges (g : PyGraph) (i : Val) :
    (addNodePlain g i).edges = g.edges := by
  unfold addNodePlain; split <;> rfl

theorem addNodePlain_directed (g : PyGraph) (i : Val) :
    (addNodePlain g i).directed = g.directed := by
  unfold addNodePlain; split <;> rfl

theorem addEdgeRaw_directed (g : PyGraph) (u v : Val) (a : Attrs) :
    (addEdgeRaw g u v a).directed = g.directed := by
  unfold addEdgeRaw; split <;> rfl

theorem addEdge_directed (g : PyGraph) (u v : Val) (a : Attrs) :
    (addEdge g u v a).directed = g.directed := by
  rw [addEdge, addEdgeRaw_directed, addNodePlain_directed, addNodePlain_directed]

/-- Adding an edge between endpoints no stored edge matches appends it:
the edges matching `(u, v)` afterwards are exactly the new one. -/
theorem addEdgeRaw_filter_fresh (g : PyGraph) (u v : Val) (a : Attrs)
    (dir : Bool) (hdir : g.directed = dir)
    (hempty : g.edges.filter (fun e => edgeMatch dir u v e.1 e.2.1) = []) :
    (addEdgeRaw g u v a).edges.filter (fun e => edgeMatch dir u v e.1 e.2.1)
      = [(u, v, a)] := by
  subst hdir
  have hall := List.filter_eq_nil_iff.mp hempty
  have hany : g.edges.any (fun e => edgeMatch g.directed u v e.1 e.2.1) = false := by
    rw [List.any_eq_false]
    intro e he
    simpa using hall e he
  unfold addEdgeRaw
  rw [if_neg (by simp [hany])]
  simp [List.filter_append, hempty, edgeMatch_refl]

/-- Adding an edge between endpoints that do not match `(u, v)` leaves
the edges matching `(u, v)` unchanged — even when the new edge merges
into a stored one, since a stored edge cannot match both keys. -/
theorem addEdgeRaw_filter_other (g : PyGraph) (u2 v2 : Val) (a : Attrs)
    (dir : Bool) (u v : Val) (hdir : g.directed = dir)
    (hne : edgeMatch dir u v u2 v2 = false) :
    (addEdgeRaw g u2 v2 a).edges.filter (fun e => edgeMatch dir u v e.1 e.2.1)
      = g.edges.filter (fun e => edgeMatch dir u v e.1 e.2.1) := by
  subst hdir
  unfold addEdgeRaw
  split
  · show (g.edges.map _).filter _ = _
    apply filter_map_eq
    · intro e _
      by_cases hq : edgeMatch g.directed u2 v2 e.1 e.2.1 = true
      · rw [if_pos hq]
      · rw [if_neg hq]
    · intro e _ hpe
      have hq : ¬ edgeMatch g.directed u2 v2 e.1 e.2.1 = true := by
        intro hq
        rw [edgeMatch_trans g.directed u v u2 v2 e.1 e.2.1 hq hpe] at hne
        simp at hne
      rw [if_neg hq]
  · show (g.edges ++ [(u2, v2, a)]).filter _ = _
    rw [List.filter_append]
    simp [hne]

theorem addEdge_filter_fresh (g : PyGraph) (u v : Val) (a : Attrs)
    (dir : Bool) (hdir : g.directed = dir)
    (hempty : g.edges.filter (fun e => edgeMatch dir u v e.1 e.2.1) = []) :
    (addEdge g u v a).edges.filter (fun e => edgeMatch dir u v e.1 e.2.1)
      = [(u, v, a)] := by
  rw [addEdge]
  apply addEdgeRaw_filter_fresh
  · rw [addNodePlain_directed, addNodePlain_directed, hdir]
  · rw [addNodePlain_edges, addNodePlain_edges]
    exact hempty

theorem addEdge_filter_other (g : PyGraph) (u2 v2 : Val) (a : Attrs)
    (dir : Bool) (u v : Val) (hdir : g.directed = dir)
    (hne : edgeMatch dir u v u2 v2 = false) :
    (addEdge g u2 v2 a).edges.filter (fun e => edgeMatch dir u v e.1 e.2.1)
      = g.edges.filter (fun e => edgeMatch dir u v e.1 e.2.1) := by
  rw [addEdge]
  rw [addEdgeRaw_filter_other _ _ _ _ dir u v
    (by rw [addNodePlain_directed, addNodePlain_directed, hdir]) hne]
  rw [addNodePlain_edges, addNodePlain_edges]

/-- The endpoints an edge record contributes, whichever branch of the
relationship loop processes it. -/
def recEndpoints (rts : List (String × List String)) (r : List Val) :
    Option (Val × Val) := do
  let t0 ← pyIndex r 0
  match edgeTypeFields rts t0 with
  | some _ => do
    let u ← pyIndex r (-2)
    let v ← pyIndex r (-1)
    pure (u, v)
  | none => do
    let u ← pyIndex r 0
    let v ← pyIndex r 1
    pure (u, v)

theorem insertEdgeRecord_shape (rts : List (String × List String))
    (g g2 : PyGraph) (r : List Val)
    (h : insertEdgeRecord rts g r = some g2) :
    ∃ (q : Val × Val) (a2 : Attrs),
      recEndpoints rts r = some q ∧ g2 = addEdge g q.1 q.2 a2 := by
  unfold insertEdgeRecord at h
  unfold recEndpoints
  cases h0 : pyIndex r 0 with
  | none => simp [h0] at h
  | some t0 =>
    simp only [h0, Option.bind_eq_bind, Option.some_bind] at h ⊢
    cases hk : edgeTypeFields rts t0 with
    | some keys =>
      simp only [hk] at h ⊢
      cases hA : edgeAttrs keys r with
      | none => simp [hA] at h
      | some A =>
        simp only [hA, Option.bind_eq_bind, Option.some_bind] at h
        cases hu : pyIndex r (-2) with
        | none => simp [hu] at h
        | some u =>
          simp only [hu, Option.bind_eq_bind, Option.some_bind] at h ⊢
          cases hv : pyIndex r (-1) with
          | none => simp [hv] at h
          | some v =>
            simp only [hv, Option.bind_eq_bind, Option.some_bind,
              Option.pure_def, Option.some.injEq] at h ⊢
            exact ⟨(u, v), A, rfl, h.symm⟩
    | none =>
      simp only [hk] at h ⊢
      cases hv : pyIndex r 1 with
      | none => simp [hv] at h
      | some v =>
        simp only [h0, hv, Option.bind_eq_bind, Option.some_bind,
          Option.pure_def, Option.some.injEq] at h ⊢
        exact ⟨(t0, v), [], rfl, h.symm⟩

theorem insertNodeRecord_shape (nts : List (String × List String))
    (tn : String) (g g2 : PyGraph) (r : List Val)
    (h : insertNodeRecord nts tn g r = some g2) :
    ∃ nid flds, pyIndex r (-1) = some nid ∧ nts.lookup tn = some flds ∧
      g2 = addNode g nid (flds.zip r) := by
  unfold insertNodeRecord at h
  cases hn : pyIndex r (-1) with
  | none => simp [hn] at h
  | some nid =>
    simp only [hn, Option.bind_eq_bind, Option.some_bind] at h
    cases hf : nts.lookup tn with
    | none => simp [hf] at h
    | some flds =>
      simp only [hf, Option.bind_eq_bind, Option.some_bind, Option.pure_def,
        Option.some.injEq] at h
      exact ⟨nid, flds, rfl, rfl, h.symm⟩

theorem jsonToGraph_split (d : Snapshot) (g : PyGraph)
    (h : jsonToGraph d = some g) :
    ∃ g1, (nodeRecordsOf d).foldlM
        (fun g tr => insertNodeRecord d.node_types tr.1 g tr.2)
        { directed := d.directed, nodes := [], edges := [] } = some g1 ∧
      d.relationship_values.foldlM
        (insertEdgeRecord d.relationship_types) g1 = some g := by
  unfold jsonToGraph at h
  simp only [Option.bind_eq_bind, Option.bind_eq_some] at h
  exact h

theorem zipWithKeys_sound :
    ∀ (n : Nat) (ks : List String) (vs : List Val) (A : Attrs),
      zipWithKeys ks vs n = some A → A = (ks.take n).zip (vs.take n) := by
  intro n
  induction n with
  | zero =>
    intro ks vs A h
    simp only [zipWithKeys, Option.some.injEq] at h
    simp [← h]
  | succ n ih =>
    intro ks vs A h
    cases ks with
    | nil => simp [zipWithKeys] at h
    | cons k ks =>
      cases vs with
      | nil => simp [zipWithKeys] at h
      | cons v vs =>
        rw [zipWithKeys] at h
        cases hz : zipWithKeys ks vs n with
        | none => rw [hz] at h; simp at h
        | some rest =>
          rw [hz] at h
          simp only [Option.map_some', Option.some.injEq] at h
          subst h
          simp [List.take_succ_cons, ih ks vs rest hz]

theorem zip_take_left :
    ∀ (ks : List String) (xs : List Val) (n : Nat),
      xs.length ≤ n → (ks.take n).zip xs = ks.zip xs := by
  intro ks
  induction ks with
  | nil => intro xs n _; simp
  | cons k ks ih =>
    intro xs n h
    cases xs with
    | nil => simp [List.zip_nil_right]
    | cons x xs =>
      cases n with
      | zero => simp at h
      | succ n =>
        simp only [List.take_succ_cons, List.zip_cons_cons]
        rw [ih xs n (by simpa using h)]

theorem dropLast_dropLast (r : List Val) :
    r.dropLast.dropLast = r.take (r.length - 2) := by
  rw [List.dropLast_eq_take, List.dropLast_eq_take, List.length_take,
    List.take_take]
  congr 1
  omega

/-- What the edge-attribute loop computes: the field names zipped
positionally against the record's values with only the last two (the
endpoints) excluded — the type name at position 0 included. -/
theorem edgeAttrs_sound (keys : List String) (r : List Val) (A : Attrs)
    (h : edgeAttrs keys r = some A) : A = keys.zip (r.dropLast.dropLast) := by
  rw [edgeAttrs] at h
  rw [zipWithKeys_sound (r.length - 2) keys r A h, dropLast_dropLast]
  exact zip_take_left keys (r.take (r.length - 2)) (r.length - 2)
    (by simp [List.length_take])

/-- The node loop touches only the vertex table. -/
theorem nodePhase_edges (nts : List (String × List String))
    (l : List (String × List Val)) (g0 g1 : PyGraph)
    (h : l.foldlM (fun g tr => insertNodeRecord nts tr.1 g tr.2) g0 = some g1) :
    g1.edges = g0.edges ∧ g1.directed = g0.directed := by
  apply foldlM_option_invariant _
    (fun g => g.edges = g0.edges ∧ g.directed = g0.directed) l g0 g1 h ⟨rfl, rfl⟩
  intro t t2 a _ hPt hf
  obtain ⟨nid, flds, _, _, rfl⟩ := insertNodeRecord_shape nts a.1 t t2 a.2 hf
  exact ⟨(addNode_edges t nid (flds.zip a.2)).trans hPt.1,
    (addNode_directed t nid (flds.zip a.2)).trans hPt.2⟩

/-- A snapshot with one edge record `["R", 7, "a", "b"]` whose type
declares the fields `["relationship_type", "w", "source", "target"]`. -/
def c1doc : Snapshot :=
  { directed := true
    node_types := []
    node_values := []
    relationship_types := [("R", ["relationship_type", "w", "source", "target"])]
    relationship_values := [[.str "R", .num 7, .str "a", .str "b"]] }

/-- The graph `c1doc` decodes to. -/
def c1graph : PyGraph :=
  { directed := true
    nodes := [(.str "a", []), (.str "b", [])]
    edges := [(.str "a", .str "b",
      [("relationship_type", .str "R"), ("w", .num 7)])] }

/-- C1 as stated is false: the decoder zips the field names against the
record's values with its first element (the type name) included, not
excluded.  On `c1doc` the stored mapping is `relationship_type := "R",
w := 7`, while the claimed zip-without-the-first-element would be
`relationship_type := 7`. -/
theorem C1_counterexample :
    jsonToGraph c1doc = some c1graph ∧
    [("relationship_type", Val.str "R"), ("w", Val.num 7)] ≠
      List.zip ["relationship_type", "w", "source", "target"]
        ((([Val.str "R", Val.num 7, Val.str "a", Val.str "b"].drop 1)).dropLast.dropLast) :=
  ⟨by decide, by decide⟩

/-- C1 amended: for a relationship record of a known type, the decoder
adds exactly one edge from `i[-2]` to `i[-1]` whose attribute mapping is
the type's field-name list zipped positionally against the record's
values excluding only the last two elements — the first element, the
type name, included — provided no other record contributes an edge
between the same endpoints (the store merges duplicate edges). -/
theorem C1_edge_decode (d : Snapshot) (g : PyGraph) (l1 l2 : List (List Val))
    (r : List Val) (t0 : Val) (keys : List String) (u v : Val) (A : Attrs)
    (hsplit : d.relationship_values = l1 ++ r :: l2)
    (hg : jsonToGraph d = some g)
    (h0 : pyIndex r 0 = some t0)
    (hk : edgeTypeFields d.relationship_types t0 = some keys)
    (hA : edgeAttrs keys r = some A)
    (hu : pyIndex r (-2) = some u)
    (hv : pyIndex r (-1) = some v)
    (huniq : ∀ r2 ∈ l1 ++ l2, ∀ q,
      recEndpoints d.relationship_types r2 = some q →
      edgeMatch d.directed u v q.1 q.2 = false) :
    g.edges.filter (fun e => edgeMatch d.directed u v e.1 e.2.1) = [(u, v, A)] ∧
    A = keys.zip (r.dropLast.dropLast) ∧ g.directed = d.directed := by
  obtain ⟨g1, hnp, hep⟩ := jsonToGraph_split d g hg
  have hg1 := nodePhase_edges d.node_types (nodeRecordsOf d) _ g1 hnp
  rw [hsplit] at hep
  obtain ⟨gmid, hl1, hrest⟩ := foldlM_option_append _ l1 (r :: l2) g1 g hep
  have hInv1 : gmid.edges.filter (fun e => edgeMatch d.directed u v e.1 e.2.1) = []
      ∧ gmid.directed = d.directed := by
    apply foldlM_option_invariant _
      (fun g2 => g2.edges.filter (fun e => edgeMatch d.directed u v e.1 e.2.1) = []
        ∧ g2.directed = d.directed) l1 g1 gmid hl1
    · refine ⟨?_, ?_⟩
      · rw [hg1.1]; rfl
      · rw [hg1.2]
    · intro t t2 a ha hPt hf
      obtain ⟨q, a2, hq, rfl⟩ := insertEdgeRecord_shape _ _ _ _ hf
      have hne := huniq a (List.mem_append_left l2 ha) q hq
      refine ⟨?_, ?_⟩
      · rw [addEdge_filter_other t q.1 q.2 a2 d.directed u v hPt.2 hne, hPt.1]
      · rw [addEdge_directed]; exact hPt.2
  rw [List.foldlM_cons] at hrest
  cases hstep : insertEdgeRecord d.relationship_types gmid r with
  | none => rw [hstep] at hrest; simp at hrest
  | some gmid2 =>
    rw [hstep] at hrest
    simp only [Option.bind_eq_bind, Option.some_bind] at hrest
    have hg2 : gmid2 = addEdge gmid u v A := by
      unfold insertEdgeRecord at hstep
      simp only [h0, hk, hA, hu, hv, Option.bind_eq_bind, Option.some_bind,
        Option.pure_def, Option.some.injEq] at hstep
      exact hstep.symm
    subst hg2
    have hInv2 : g.edges.filter (fun e => edgeMatch d.directed u v e.1 e.2.1)
        = [(u, v, A)] ∧ g.directed = d.directed := by
      apply foldlM_option_invariant _
        (fun g2 => g2.edges.filter (fun e => edgeMatch d.directed u v e.1 e.2.1)
          = [(u, v, A)] ∧ g2.directed = d.directed) l2 _ g hrest
      · refine ⟨?_, ?_⟩
        · exact addEdge_filter_fresh gmid u v A d.directed hInv1.2 hInv1.1
        · rw [addEdge_directed]; exact hInv1.2
      · intro t t2 a ha hPt hf
        obtain ⟨q, a2, hq, rfl⟩ := insertEdgeRecord_shape _ _ _ _ hf
        have hne := huniq a (List.mem_append_right l1 ha) q hq
        refine ⟨?_, ?_⟩
        · rw [addEdge_filter_other t q.1 q.2 a2 d.directed u v hPt.2 hne, hPt.1]
        · rw [addEdge_directed]; exact hPt.2
    exact ⟨hInv2.1, edgeAttrs_sound keys r A hA, hInv2.2⟩

theorem C1_edge_decode_witness :
    c1graph.edges.filter
        (fun e => edgeMatch c1doc.directed (Val.str "a") (Val.str "b") e.1 e.2.1)
      = [(Val.str "a", Val.str "b",
          [("relationship_type", Val.str "R"), ("w", Val.num 7)])] ∧
    [("relationship_type", Val.str "R"), ("w", Val.num 7)]
      = ["relationship_type", "w", "source", "target"].zip
          (([Val.str "R", Val.num 7, Val.str "a", Val.str "b"].dropLast).dropLast) ∧
    c1graph.directed = c1doc.directed :=
  C1_edge_decode c1doc c1graph [] []
    [Val.str "R", Val.num 7, Val.str "a", Val.str "b"]
    (Val.str "R") ["relationship_type", "w", "source", "target"]
    (Val.str "a") (Val.str "b")
    [("relationship_type", Val.str "R"), ("w", Val.num 7)]
    (by decide) (by decide) (by decide) (by decide) (by decide) (by decide)
    (by decide) (by intro r2 hr2 q hq; simp at hr2)

theorem hasNode_of_filter (g : PyGraph) (i : Val)
    (h : g.nodes.filter (fun p => p.1 = i) ≠ []) : hasNode g i = true := by
  rw [hasNode, List.any_eq_true]
  rcases hf : g.nodes.filter (fun p => p.1 = i) with _ | ⟨p, ps⟩
  · exact absurd hf h
  · have hp : p ∈ g.nodes.filter (fun p => p.1 = i) := by
      rw [hf]; exact List.mem_cons_self p ps
    have hm := List.mem_filter.mp hp
    exact ⟨p, hm.1, hm.2⟩

/-- Inserting a fresh vertex appends it: afterwards it is the only entry
under its key, carrying exactly the given attributes. -/
theorem addNode_filter_fresh (g : PyGraph) (i : Val) (a : Attrs)
    (hempty : g.nodes.filter (fun p => p.1 = i) = []) :
    (addNode g i a).nodes.filter (fun p => p.1 = i) = [(i, a)] := by
  have hall := List.filter_eq_nil_iff.mp hempty
  have hhn : hasNode g i = false := by
    rw [hasNode, List.any_eq_false]
    intro p hp
    simpa using hall p hp
  unfold addNode
  rw [if_neg (by simp [hhn])]
  simp [List.filter_append, hempty]

/-- Inserting a vertex under a different key leaves the entries under
key `i` unchanged, merge branch included. -/
theorem addNode_filter_other (g : PyGraph) (j : Val) (a : Attrs) (i : Val)
    (hne : j ≠ i) :
    (addNode g j a).nodes.filter (fun p => p.1 = i)
      = g.nodes.filter (fun p => p.1 = i) := by
  unfold addNode
  split
  · show (g.nodes.map _).filter _ = _
    apply filter_map_eq
    · intro p _
      by_cases hp : p.1 = j
      · rw [if_pos hp]
      · rw [if_neg hp]
    · intro p _ hpi
      have hpj : ¬ p.1 = j := by
        intro hj
        rw [decide_eq_true_eq] at hpi
        exact hne (hj ▸ hpi)
      rw [if_neg hpj]
  · show (g.nodes ++ [(j, a)]).filter _ = _
    rw [List.filter_append]
    simp [hne]

theorem addNodePlain_filter_keep (g : PyGraph) (j i : Val)
    (hne : g.nodes.filter (fun p => p.1 = i) ≠ []) :
    (addNodePlain g j).nodes.filter (fun p => p.1 = i)
      = g.nodes.filter (fun p => p.1 = i) := by
  unfold addNodePlain
  split
  · rfl
  · rename_i hnj
    rw [List.filter_append]
    have hji : ¬ (j = i) := by
      intro hj
      exact hnj (hj ▸ hasNode_of_filter g i hne)
    simp [hji]

theorem addEdgeRaw_nodes (g : PyGraph) (u v : Val) (a : Attrs) :
    (addEdgeRaw g u v a).nodes = g.nodes := by
  unfold addEdgeRaw; split <;> rfl

/-- `add_edge` never touches the attributes of an existing vertex. -/
theorem addEdge_filter_nodes (g : PyGraph) (u v : Val) (a : Attrs) (i : Val)
    (hne : g.nodes.filter (fun p => p.1 = i) ≠ []) :
    (addEdge g u v a).nodes.filter (fun p => p.1 = i)
      = g.nodes.filter (fun p => p.1 = i) := by
  rw [addEdge]
  have h1 := addNodePlain_filter_keep g u i hne
  have h2 := addNodePlain_filter_keep (addNodePlain g u) v i (by rw [h1]; exact hne)
  rw [addEdgeRaw_nodes, h2, h1]

theorem pyGet_zip_not_mem :
    ∀ (fs : List String) (vs : List Val) (k : String), k ∉ fs →
      pyGet (fs.zip vs) k = none := by
  intro fs
  induction fs with
  | nil => intro vs k _; cases vs <;> rfl
  | cons f fs ih =>
    intro vs k hk
    cases vs with
    | nil => rfl
    | cons v vs =>
      rw [List.zip_cons_cons, pyGet, ih vs k (fun hm => hk (List.mem_cons_of_mem f hm))]
      rw [if_neg (fun hf => hk (by rw [← hf]; exact List.mem_cons_self f fs))]

/-- Looking a declared field up in the zipped attribute dict returns the
record value at that field's position, when the field names are distinct
and record and field list have equal length. -/
theorem pyGet_zip_pos :
    ∀ (fs : List String) (vs : List Val), fs.Nodup → fs.length = vs.length →
      ∀ j k, fs.get? j = some k → pyGet (fs.zip vs) k = vs.get? j := by
  intro fs
  induction fs with
  | nil => intro vs _ _ j k h; simp at h
  | cons f fs ih =>
    intro vs hnd hlen j k hk
    cases vs with
    | nil => simp at hlen
    | cons v vs =>
      rw [List.zip_cons_cons]
      cases j with
      | zero =>
        simp only [List.get?_cons_zero, Option.some.injEq] at hk
        subst hk
        rw [pyGet, pyGet_zip_not_mem fs vs f (List.nodup_cons.mp hnd).1]
        simp
      | succ j =>
        have hk2 : fs.get? j = some k := by simpa using hk
        have hrec := ih vs (List.nodup_cons.mp hnd).2 (by simpa using hlen) j k hk2
        rw [pyGet, hrec]
        have hj : j < fs.length := by
          by_contra hc
          rw [List.get?_eq_none.mpr (by omega)] at hk2
          exact Option.noConfusion hk2
        obtain ⟨w, hw⟩ : ∃ w, vs.get? j = some w := by
          cases hv : vs.get? j with
          | none =>
            rw [List.get?_eq_none] at hv
            simp only [List.length_cons] at hlen
            omega
          | some w => exact ⟨w, rfl⟩
        rw [hw]
        have hup : (v :: vs).get? (j + 1) = some w := by simpa using hw
        rw [hup]

theorem pyIndex_last (xs : List Val) (x : Val)
    (h : pyIndex xs (-1) = some x) : xs.get? (xs.length - 1) = some x := by
  unfold pyIndex at h
  rw [if_neg (by omega)] at h
  by_cases hl : 0 ≤ (-1 : ℤ) + xs.length
  · rw [if_pos hl] at h
    have he : ((-1 : ℤ) + xs.length).toNat = xs.length - 1 := by omega
    rwa [he] at h
  · rw [if_neg hl] at h
    exact Option.noConfusion h

/-- C2: for a node record whose identifier collides with no other
record, the decoded graph holds exactly one vertex keyed by the record's
last value, its attributes the type's field names zipped positionally
against the record's values; under distinct field names of the record's
length, every declared field looks up to the value at its position, and
the last field re-stores the identifier. -/
theorem C2_node_decode (d : Snapshot) (g : PyGraph)
    (l1 l2 : List (String × List Val)) (tn : String) (nr : List Val)
    (nid : Val) (fields : List String)
    (hsplit : nodeRecordsOf d = l1 ++ (tn, nr) :: l2)
    (hg : jsonToGraph d = some g)
    (hnid : pyIndex nr (-1) = some nid)
    (hfields : d.node_types.lookup tn = some fields)
    (huniq : ∀ q ∈ l1 ++ l2, ∀ nid2, pyIndex q.2 (-1) = some nid2 → nid2 ≠ nid)
    (hlen : fields.length = nr.length)
    (hnodup : fields.Nodup) :
    g.nodes.filter (fun p => p.1 = nid) = [(nid, fields.zip nr)] ∧
    (∀ j k, fields.get? j = some k → pyGet (fields.zip nr) k = nr.get? j) ∧
    (∀ k, fields.get? (fields.length - 1) = some k →
      pyGet (fields.zip nr) k = some nid) := by
  obtain ⟨g1, hnp, hep⟩ := jsonToGraph_split d g hg
  rw [hsplit] at hnp
  obtain ⟨gmid, hl1, hrest⟩ := foldlM_option_append _ l1 _ _ g1 hnp
  have hInv1 : gmid.nodes.filter (fun p => p.1 = nid) = [] := by
    apply foldlM_option_invariant _
      (fun g2 => g2.nodes.filter (fun p => p.1 = nid) = []) l1 _ gmid hl1 rfl
    intro t t2 a ha hPt hf
    obtain ⟨nid2, flds2, hn2, _, rfl⟩ := insertNodeRecord_shape _ _ _ _ _ hf
    have hne := huniq a (List.mem_append_left l2 ha) nid2 hn2
    rw [addNode_filter_other t nid2 _ nid hne, hPt]
  rw [List.foldlM_cons] at hrest
  cases hstep : insertNodeRecord d.node_types tn gmid nr with
  | none => rw [hstep] at hrest; simp at hrest
  | some gmid2 =>
    rw [hstep] at hrest
    simp only [Option.bind_eq_bind, Option.some_bind] at hrest
    have hg2 : gmid2 = addNode gmid nid (fields.zip nr) := by
      unfold insertNodeRecord at hstep
      simp only [hnid, hfields, Option.bind_eq_bind, Option.some_bind,
        Option.pure_def, Option.some.injEq] at hstep
      exact hstep.symm
    subst hg2
    have hfresh := addNode_filter_fresh gmid nid (fields.zip nr) hInv1
    have hInv2 : g1.nodes.filter (fun p => p.1 = nid) = [(nid, fields.zip nr)] := by
      apply foldlM_option_invariant _
        (fun g2 => g2.nodes.filter (fun p => p.1 = nid) = [(nid, fields.zip nr)])
        l2 _ g1 hrest hfresh
      intro t t2 a ha hPt hf
      obtain ⟨nid2, flds2, hn2, _, rfl⟩ := insertNodeRecord_shape _ _ _ _ _ hf
      have hne := huniq a (List.mem_append_right l1 ha) nid2 hn2
      rw [addNode_filter_other t nid2 _ nid hne, hPt]
    have hInv3 : g.nodes.filter (fun p => p.1 = nid) = [(nid, fields.zip nr)] := by
      apply foldlM_option_invariant _
        (fun g2 => g2.nodes.filter (fun p => p.1 = nid) = [(nid, fields.zip nr)])
        d.relationship_values g1 g hep hInv2
      intro t t2 a _ hPt hf
      obtain ⟨q, a2, hq, rfl⟩ := insertEdgeRecord_shape _ _ _ _ hf
      rw [addEdge_filter_nodes t q.1 q.2 a2 nid (by rw [hPt]; simp), hPt]
    refine ⟨hInv3, pyGet_zip_pos fields nr hnodup hlen, ?_⟩
    intro k hk
    rw [pyGet_zip_pos fields nr hnodup hlen _ k hk, hlen]
    exact pyIndex_last nr nid hnid

theorem C2_node_decode_witness :
    demoGraph.nodes.filter (fun p => p.1 = Val.str "BG_001")
      = [(Val.str "BG_001", (["node_type", "name", "id"]).zip
          [Val.str "BusinessGroup", Val.str "Alpha", Val.str "BG_001"])] ∧
    (∀ j k, (["node_type", "name", "id"] : List String).get? j = some k →
      pyGet ((["node_type", "name", "id"]).zip
          [Val.str "BusinessGroup", Val.str "Alpha", Val.str "BG_001"]) k
        = [Val.str "BusinessGroup", Val.str "Alpha", Val.str "BG_001"].get? j) ∧
    (∀ k, (["node_type", "name", "id"] : List String).get?
        ((["node_type", "name", "id"] : List String).length - 1) = some k →
      pyGet ((["node_type", "name", "id"]).zip
          [Val.str "BusinessGroup", Val.str "Alpha", Val.str "BG_001"]) k
        = some (Val.str "BG_001")) :=
  C2_node_decode demoDoc demoGraph [] [] "BusinessGroup"
    [Val.str "BusinessGroup", Val.str "Alpha", Val.str "BG_001"]
    (Val.str "BG_001") ["node_type", "name", "id"]
    (by decide) demoDoc_decodes (by decide) (by decide)
    (by intro q hq nid2 h2 he; simp at hq) (by decide) (by decide)

/-- The adjacency `nx.ego_graph` explores from a vertex: for an
undirected graph either endpoint of an incident edge, for a directed
graph only the targets of out-edges — the call in `ego_graph_query`
passes no `undirected=True`. -/
def succList (g : PyGraph) (u : Val) : List Val :=
  g.edges.flatMap (fun e =>
    (if e.1 = u then [e.2.1] else []) ++
    (if g.directed = false ∧ e.2.1 = u then [e.1] else []))

/-- The vertices within `r` adjacency hops of `n`: what the BFS of
`nx.single_source_shortest_path_length(G, n, cutoff=radius)` visits. -/
def ball (g : PyGraph) (n : Val) : Nat → List Val
  | 0 => [n]
  | r + 1 => ball g n r ++ (ball g n r).flatMap (succList g)

/-- `v` lies within `r` hops of `u` along the graph's adjacency. -/
inductive ReachWithin (g : PyGraph) : Val → Val → Nat → Prop
  | refl (u : Val) (r : Nat) : ReachWithin g u u r
  | step {u w v : Val} {r : Nat} (hw : w ∈ succList g u)
      (hr : ReachWithin g w v r) : ReachWithin g u v (r + 1)

theorem ReachWithin_mono {g : PyGraph} {u v : Val} {r : Nat}
    (h : ReachWithin g u v r) : ReachWithin g u v (r + 1) := by
  induction h with
  | refl u r => exact ReachWithin.refl u (r + 1)
  | step hw _ ih => exact ReachWithin.step hw ih

theorem ReachWithin_snoc {g : PyGraph} {n u v : Val} {r : Nat}
    (h : ReachWithin g n u r) (hv : v ∈ succList g u) :
    ReachWithin g n v (r + 1) := by
  induction h with
  | refl u r => exact ReachWithin.step hv (ReachWithin.refl v r)
  | step hw _ ih => exact ReachWithin.step hw (ih hv)

theorem ReachWithin_zero {g : PyGraph} {n v : Val}
    (h : ReachWithin g n v 0) : v = n := by
  cases h
  rfl

theorem ReachWithin_peel {g : PyGraph} :
    ∀ (r : Nat) (n v : Val), ReachWithin g n v (r + 1) →
      ReachWithin g n v r ∨ ∃ u, ReachWithin g n u r ∧ v ∈ succList g u := by
  intro r
  induction r with
  | zero =>
    intro n v h
    cases h with
    | refl => exact Or.inl (ReachWithin.refl n 0)
    | step hw hr =>
      have hv := ReachWithin_zero hr
      subst hv
      exact Or.inr ⟨n, ReachWithin.refl n 0, hw⟩
  | succ r ih =>
    intro n v h
    cases h with
    | refl => exact Or.inl (ReachWithin.refl n (r + 1))
    | step hw hr =>
      rcases ih _ v hr with h1 | ⟨u, hu, hv⟩
      · exact Or.inl (ReachWithin.step hw h1)
      · exact Or.inr ⟨u, ReachWithin.step hw hu, hv⟩

/-- The BFS ball computes exactly hop-distance reachability. -/
theorem ball_mem_iff (g : PyGraph) (n : Val) :
    ∀ (r : Nat) (v : Val), v ∈ ball g n r ↔ ReachWithin g n v r := by
  intro r
  induction r with
  | zero =>
    intro v
    constructor
    · intro h
      rw [ball, List.mem_singleton] at h
      rw [h]
      exact ReachWithin.refl n 0
    · intro h
      rw [ReachWithin_zero h, ball]
      exact List.mem_singleton.mpr rfl
  | succ r ih =>
    intro v
    rw [ball, List.mem_append, List.mem_flatMap]
    constructor
    · rintro (h | ⟨u, hu, hv⟩)
      · exact ReachWithin_mono ((ih v).mp h)
      · exact ReachWithin_snoc ((ih u).mp hu) hv
    · intro h
      rcases ReachWithin_peel r n v h with h1 | ⟨u, hu, hv⟩
      · exact Or.inl ((ih v).mpr h1)
      · exact Or.inr ⟨u, (ih u).mpr hu, hv⟩

/-- `G.subgraph(keep)`: the vertices among `keep` with their attributes,
and the edges with both endpoints among `keep`. -/
def inducedSubgraph (g : PyGraph) (keep : List Val) : PyGraph :=
  { directed := g.directed
    nodes := g.nodes.filter (fun p => decide (p.1 ∈ keep))
    edges := g.edges.filter (fun e => decide (e.1 ∈ keep) && decide (e.2.1 ∈ keep)) }

/-- `ego_graph_query(graph, node_id, radius)`, i.e.
`nx.ego_graph(graph, node_id, radius=radius)`: the subgraph induced by
the vertices within `radius` hops of the centre along the graph's own
adjacency; `none` models the NodeNotFound raised for an absent
centre. -/
def ego_graph_query (g : PyGraph) (n : Val) (radius : Nat) : Option PyGraph :=
  if hasNode g n then some (inducedSubgraph g (ball g n radius)) else none

/-- A directed snapshot whose only edge runs from `a` to `b` (an untyped
fallback edge), so `b` has only an incoming edge. -/
def c6doc : Snapshot :=
  { directed := true
    node_types := [("T", ["id"])]
    node_values := [("T", [[Val.str "a"], [Val.str "b"]])]
    relationship_types := []
    relationship_values := [[Val.str "a", Val.str "b"]] }

/-- The graph `c6doc` decodes to. -/
def c6graph : PyGraph :=
  { directed := true
    nodes := [(.str "a", [("id", .str "a")]), (.str "b", [("id", .str "b")])]
    edges := [(.str "a", .str "b", [])] }

/-- The radius-1 ego graph the code produces around `b`. -/
def c6egoB : PyGraph :=
  { directed := true
    nodes := [(.str "b", [("id", .str "b")])]
    edges := [] }

/-- C6 as stated is false: in the decoded directed graph `a -> b`, the
radius-1 ego neighborhood of `b` contains only `b` itself — its
in-neighbor `a` is not included, because `nx.ego_graph` is called
without `undirected=True` and follows out-edges only. -/
theorem C6_counterexample :
    jsonToGraph c6doc = some c6graph ∧
    ego_graph_query c6graph (Val.str "b") 1 = some c6egoB ∧
    c6egoB.nodes = [(Val.str "b", [("id", Val.str "b")])] ∧
    (Val.str "a", Val.str "b", ([] : Attrs)) ∈ c6graph.edges :=
  ⟨by decide, by decide, by decide, by decide⟩

/-- C6 amended: for a present centre, the ego query returns the subgraph
induced by the vertices within the given number of hops along the
graph's own adjacency — out-edges only when the graph is directed,
either direction when it is undirected. -/
theorem C6_ego_neighborhood (g : PyGraph) (n : Val) (r : Nat) (sub : PyGraph)
    (h : ego_graph_query g n r = some sub) :
    hasNode g n = true ∧
    (∀ i a, (i, a) ∈ sub.nodes ↔ (i, a) ∈ g.nodes ∧ ReachWithin g n i r) ∧
    (∀ e, e ∈ sub.edges ↔
      e ∈ g.edges ∧ ReachWithin g n e.1 r ∧ ReachWithin g n e.2.1 r) := by
  unfold ego_graph_query at h
  by_cases hn : hasNode g n = true
  · rw [if_pos hn, Option.some.injEq] at h
    subst h
    refine ⟨hn, ?_, ?_⟩
    · intro i a
      rw [inducedSubgraph]
      simp only [List.mem_filter, decide_eq_true_eq]
      rw [ball_mem_iff g n r i]
    · intro e
      rw [inducedSubgraph]
      simp only [List.mem_filter, Bool.and_eq_true, decide_eq_true_eq]
      rw [ball_mem_iff g n r e.1, ball_mem_iff g n r e.2.1]
  · rw [if_neg hn] at h
    exact Option.noConfusion h

/-- The radius-1 ego graph around `a`: both vertices and the edge. -/
def c6egoA : PyGraph :=
  { directed := true
    nodes := [(.str "a", [("id", .str "a")]), (.str "b", [("id", .str "b")])]
    edges := [(.str "a", .str "b", [])] }

theorem C6_ego_neighborhood_witness :
    ((Val.str "b", ([("id", Val.str "b")] : Attrs)) ∈ c6egoA.nodes ↔
      (Val.str "b", ([("id", Val.str "b")] : Attrs)) ∈ c6graph.nodes ∧
        ReachWithin c6graph (Val.str "a") (Val.str "b") 1) :=
  (C6_ego_neighborhood c6graph (Val.str "a") 1 c6egoA (by decide)).2.1
    (Val.str "b") [("id", Val.str "b")]

end QD
